import Mathlib

set_option maxHeartbeats 1000000
set_option maxRecDepth 8000

/-!
Shallow embedding of the offline-first sync core of the therapy-helper app:
the sync queue service (`SyncQueueService`), the transport adapter
(`GoogleSheetsService`), and the sync orchestrator (`SyncManager`), together
with proofs about their specified behaviour.

Conventions of the embedding:
* JS strings are Lean `String`s; a possibly-absent string field is
  `Option String` (`none` = `undefined`).
* The JS truthiness test `if (id)` on an optional string is `truthy` below
  (`none` and the empty string are falsy).
* Asynchronous remote calls are parameterized as explicit functions or
  environment records; the requests actually issued are returned as traces
  so that "no request was sent" is a statable fact.
-/

/-- How an `updatedAt` string field behaves under the JS conversion
`new Date(x || 0).getTime()` used by `SyncManager.mergeData`: a missing
(or empty, hence falsy) field yields the epoch `0`; a non-empty string that
does not parse as a date yields `NaN`; a parseable string yields its time
value (milliseconds, here an unbounded `Int`). -/
inductive TimeField where
  | missing : TimeField
  | unparseable : TimeField
  | valid : Int → TimeField
deriving DecidableEq, Repr

/-- Result of `new Date(x || 0).getTime()`; `none` models `NaN`. -/
def jsTime : TimeField → Option Int
  | .missing => some 0
  | .unparseable => none
  | .valid t => some t

/-- The JS comparison `a > b` on `getTime` results: every comparison
involving `NaN` is false. -/
def jsGtTime : Option Int → Option Int → Bool
  | some a, some b => decide (b < a)
  | some _, none => false
  | none, _ => false

/-- The strictly-newer test `new Date(a||0).getTime() > new Date(b||0).getTime()`
as used by `SyncManager.mergeData` (both for remote-beats-local and
local-beats-remote directions). -/
def tsGt (a b : TimeField) : Bool := jsGtTime (jsTime a) (jsTime b)

/-- A synchronized entity record (client or session): the `id`, the
`updatedAt` conflict-resolution field, and an opaque payload standing for
all remaining domain fields. -/
structure Item where
  id : String
  updatedAt : TimeField
  payload : Nat
deriving DecidableEq, Repr

/-- A mutation payload as it travels through the queue and the transport:
an optional `id` (absent e.g. for full-sync payloads), an optional `notes`
field (the only field the transport truncates), and an opaque payload. -/
structure Data where
  id : Option String
  notes : Option String
  payload : Nat
deriving DecidableEq, Repr

/-- A sync-queue entry: `{ action, data, timestamp }` as pushed by
`SyncQueueService.add`. -/
structure Entry where
  action : String
  data : Data
  timestamp : String
deriving DecidableEq, Repr

/-- JS truthiness of an optional string: `undefined` and `""` are falsy. -/
def truthy : Option String → Bool
  | none => false
  | some s => !(s == "")

namespace SyncQueueService

/-- SyncQueueService.add: if the new data's id is truthy, first remove every
entry whose `data.id` equals it (`item.data?.id !== id`), then append the
new `{action, data, timestamp}` entry. The capture-time timestamp
`new Date().toISOString()` is passed in explicitly. -/
def add (q : List Entry) (action : String) (d : Data) (ts : String) : List Entry :=
  let q1 := if truthy d.id then q.filter (fun e => !(e.data.id == d.id)) else q
  q1 ++ [⟨action, d, ts⟩]

/-- SyncQueueService.removeById: keep the entries whose `data?.id` differs
from the given id (which, as in `pushChange`, may itself be `undefined`). -/
def removeById (q : List Entry) (i : Option String) : List Entry :=
  q.filter (fun e => !(e.data.id == i))

/-- SyncQueueService.removeItems: drop every entry whose `data?.id` occurs
among the `data?.id`s of the supplied items. -/
def removeItems (q : List Entry) (items : List Entry) : List Entry :=
  q.filter (fun e => !((items.map (fun it => it.data.id)).contains e.data.id))

/-- SyncQueueService.clear / the queue component of clearAll. -/
def clear (_q : List Entry) : List Entry := []

/-- SyncQueueService.process with an effect-free handler (the handler
performs the remote write and either resolves to a boolean or rejects,
modelled as `Option Bool` with `none` = threw): classify each entry of the
queue in order into `successful` (handler returned `true`) or `failed`
(returned `false` or threw). -/
def processGo (h : Entry → Option Bool) : List Entry → List Entry × List Entry
  | [] => ([], [])
  | e :: rest =>
    let p := processGo h rest
    if h e == some true then (e :: p.1, p.2) else (p.1, e :: p.2)

/-- SyncQueueService.process: returns the `{successful, failed}` partition
and the new queue, which is overwritten with the failed subset. -/
def process (h : Entry → Option Bool) (q : List Entry) :
    (List Entry × List Entry) × List Entry :=
  (processGo h q, (processGo h q).2)

/-- A queue-mutating operation of the service, used to state invariants
that hold "after every queue operation". -/
inductive QOp where
  | add (action : String) (d : Data) (ts : String)
  | removeById (i : Option String)
  | removeItems (items : List Entry)
  | clear
  | clearAll
  | process (h : Entry → Option Bool)

/-- Effect of a queue operation on the queue list (`clearAll` additionally
clears the tombstone set, which is tracked separately). -/
def applyOp : QOp → List Entry → List Entry
  | .add a d ts, q => add q a d ts
  | .removeById i, q => removeById q i
  | .removeItems its, q => removeItems q its
  | .clear, q => clear q
  | .clearAll, q => clear q
  | .process h, q => (process h q).2

/-- At most one queue entry per distinct non-empty `data.id`. -/
def DedupInv (q : List Entry) : Prop :=
  ∀ s : String, s ≠ "" → q.countP (fun e => e.data.id == some s) ≤ 1

end SyncQueueService

section ProcessLemmas

open SyncQueueService

theorem processGo_eq_filter (h : Entry → Option Bool) (q : List Entry) :
    processGo h q =
      (q.filter (fun e => h e == some true),
       q.filter (fun e => !(h e == some true))) := by
  induction q with
  | nil => rfl
  | cons e rest ih =>
    simp only [processGo, ih, List.filter_cons]
    cases hb : h e == some true <;> simp [hb]

theorem count_filter_partition (p : Entry → Bool) (q : List Entry) (e : Entry) :
    (q.filter p).count e + (q.filter (fun x => !(p x))).count e = q.count e := by
  induction q with
  | nil => rfl
  | cons a rest ih =>
    by_cases hpa : p a = true
    · rw [List.filter_cons_of_pos hpa, List.filter_cons_of_neg (by simp [hpa])]
      by_cases hea : a = e
      · subst hea
        rw [List.count_cons_self, List.count_cons_self]
        omega
      · rw [List.count_cons_of_ne (fun hc => hea hc.symm),
          List.count_cons_of_ne (fun hc => hea hc.symm)]
        exact ih
    · rw [List.filter_cons_of_neg hpa,
        List.filter_cons_of_pos (by simp [hpa])]
      by_cases hea : a = e
      · subst hea
        rw [List.count_cons_self, List.count_cons_self]
        omega
      · rw [List.count_cons_of_ne (fun hc => hea hc.symm),
          List.count_cons_of_ne (fun hc => hea hc.symm)]
        exact ih

end ProcessLemmas

/-- Claim C4: for every queue and every handler, after `process` the queue
contains exactly the entries for which the handler returned a non-true
result or threw, in their original relative order (a filter of the
original queue), and the returned `{successful, failed}` partition covers
the original entries exactly once each (counted with multiplicity). -/
theorem claim_C4_drain_partition (h : Entry → Option Bool) (q : List Entry) :
    SyncQueueService.process h q =
      ((q.filter (fun e => h e == some true),
        q.filter (fun e => !(h e == some true))),
       q.filter (fun e => !(h e == some true))) ∧
    ∀ e : Entry,
      (SyncQueueService.process h q).1.1.count e +
        (SyncQueueService.process h q).1.2.count e = q.count e := by
  constructor
  · simp [SyncQueueService.process, processGo_eq_filter]
  · intro e
    simp only [SyncQueueService.process, processGo_eq_filter]
    exact count_filter_partition (fun e => h e == some true) q e

section AddLemmas

open SyncQueueService

/-- After an `add` with a truthy id, the queue holds exactly one entry with
that id: the freshly appended one. -/
theorem add_filter_truthy (q : List Entry) (a : String) (d : Data) (ts : String)
    (h : truthy d.id = true) :
    (add q a d ts).filter (fun e => e.data.id == d.id) = [⟨a, d, ts⟩] := by
  simp only [add, h, if_pos, List.filter_append]
  rw [List.filter_filter]
  have h1 : (q.filter fun e => (e.data.id == d.id) && !(e.data.id == d.id)) = [] := by
    apply List.filter_eq_nil_iff.mpr
    intro e _
    cases e.data.id == d.id <;> simp
  rw [h1]
  simp

/-- An `add` whose data id is JS-falsy (missing or empty) deduplicates
nothing: it is a plain append. -/
theorem add_falsy_append (q : List Entry) (a : String) (d : Data) (ts : String)
    (h : truthy d.id = false) :
    add q a d ts = q ++ [⟨a, d, ts⟩] := by
  simp [add, h]

theorem countP_le_of_sublist {p : Entry → Bool} {q q' : List Entry}
    (h : List.Sublist q' q) : q'.countP p ≤ q.countP p :=
  h.countP_le p

end AddLemmas

/-- Claim C3 counterexample: two enqueue calls whose data carries the same
(empty-string) id leave two queue entries sharing that `data.id`, because
the dedup guard `if (id)` treats the empty string as falsy; so the literal
invariant "at most one queue entry per distinct data.id" fails. -/
theorem claim_C3_counterexample :
    ((SyncQueueService.add
        (SyncQueueService.add [] "a" ⟨some "", none, 0⟩ "t1")
        "b" ⟨some "", none, 1⟩ "t2").countP
      (fun e => e.data.id == some "")) = 2 := by decide

/-- Claim C3 (amended): (1) for every non-empty sequence of enqueue calls
whose data all carry the same non-empty id, the queue afterwards holds
exactly one entry for that id, with the action/data/timestamp of the last
call; (2) an enqueue whose data id is missing or empty never deduplicates
(it is a plain append); (3) the invariant "at most one queue entry per
distinct non-empty data.id" is preserved by every queue operation. -/
theorem claim_C3_idempotent_enqueue :
    (∀ (q : List Entry) (cs : List (String × Data × String))
        (c : String × Data × String) (i : String), i ≠ "" →
        (∀ x ∈ cs ++ [c], x.2.1.id = some i) →
        ((cs ++ [c]).foldl
            (fun (qq : List Entry) (x : String × Data × String) =>
              SyncQueueService.add qq x.1 x.2.1 x.2.2) q).filter
            (fun e => e.data.id == some i)
          = [⟨c.1, c.2.1, c.2.2⟩]) ∧
    (∀ (q : List Entry) (a : String) (d : Data) (ts : String),
        truthy d.id = false →
        SyncQueueService.add q a d ts = q ++ [⟨a, d, ts⟩]) ∧
    (∀ (op : SyncQueueService.QOp) (q : List Entry),
        SyncQueueService.DedupInv q →
        SyncQueueService.DedupInv (SyncQueueService.applyOp op q)) := by
  refine ⟨?_, ?_, ?_⟩
  · intro q cs c i hi hall
    rw [List.foldl_append]
    simp only [List.foldl_cons, List.foldl_nil]
    have hc : c.2.1.id = some i := hall c (by simp)
    have ht : truthy c.2.1.id = true := by
      rw [hc]; simp [truthy, hi]
    rw [← hc]
    exact add_filter_truthy _ c.1 c.2.1 c.2.2 ht
  · exact add_falsy_append
  · intro op q hq
    cases op with
    | add a d ts =>
      intro s hs
      by_cases htr : truthy d.id = true
      · simp only [SyncQueueService.applyOp, SyncQueueService.add, htr, if_pos,
          List.countP_append]
        by_cases hid : d.id = some s
        · have h0 : (q.filter fun e => !(e.data.id == d.id)).countP
              (fun e => e.data.id == some s) = 0 := by
            rw [List.countP_eq_zero]
            intro e he
            have := (List.mem_filter.mp he).2
            rw [hid] at this
            simpa using this
          rw [h0]
          simp [List.countP_cons, hid]
        · have h1 : (q.filter fun e => !(e.data.id == d.id)).countP
              (fun e => e.data.id == some s) ≤ 1 :=
            le_trans (countP_le_of_sublist (List.filter_sublist q)) (hq s hs)
          have h2 : ([(⟨a, d, ts⟩ : Entry)].countP
              (fun e => e.data.id == some s)) = 0 := by
            have hne : (d.id == some s) = false := by
              cases hdid : d.id with
              | none => rfl
              | some v =>
                rw [beq_eq_false_iff_ne]
                intro hv
                exact hid (hdid.trans hv)
            simp [List.countP_cons, hne]
          omega
      · have hfal : truthy d.id = false := by
          cases htf : truthy d.id
          · rfl
          · exact absurd htf htr
        simp only [SyncQueueService.applyOp]
        rw [add_falsy_append q a d ts hfal]
        rw [List.countP_append]
        have h2 : ([(⟨a, d, ts⟩ : Entry)].countP
            (fun e => e.data.id == some s)) = 0 := by
          have hne : (d.id == some s) = false := by
            cases hdid : d.id with
            | none => rfl
            | some v =>
              have hv : v = "" := by
                rw [hdid] at hfal
                simpa [truthy] using hfal
              subst hv
              rw [beq_eq_false_iff_ne]
              intro hv'
              exact hs (Option.some.inj hv').symm
          simp [List.countP_cons, hne]
        have := hq s hs
        omega
    | removeById i =>
      intro s hs
      exact le_trans (countP_le_of_sublist (List.filter_sublist q)) (hq s hs)
    | removeItems its =>
      intro s hs
      exact le_trans (countP_le_of_sublist (List.filter_sublist q)) (hq s hs)
    | clear => intro s _; simp [SyncQueueService.applyOp, SyncQueueService.clear]
    | clearAll => intro s _; simp [SyncQueueService.applyOp, SyncQueueService.clear]
    | process h =>
      intro s hs
      simp only [SyncQueueService.applyOp, SyncQueueService.process,
        processGo_eq_filter]
      exact le_trans (countP_le_of_sublist (List.filter_sublist q)) (hq s hs)

/-- Claim C3 witness: the amended theorem applied at a concrete enqueue
sequence and a concrete queue operation. -/
theorem claim_C3_idempotent_enqueue_witness :
    ((([] ++ [(("a" : String), (⟨some "x", none, 0⟩ : Data), ("t" : String))]).foldl
        (fun (qq : List Entry) (x : String × Data × String) =>
          SyncQueueService.add qq x.1 x.2.1 x.2.2) ([] : List Entry)).filter
        (fun (e : Entry) => e.data.id == some "x")
      = [⟨"a", ⟨some "x", none, 0⟩, "t"⟩]) ∧
    SyncQueueService.DedupInv
      (SyncQueueService.applyOp (.add "a" ⟨some "x", none, 0⟩ "t") []) :=
  ⟨claim_C3_idempotent_enqueue.1 [] [] ("a", ⟨some "x", none, 0⟩, "t") "x"
      (by decide) (by decide),
   claim_C3_idempotent_enqueue.2.2 (.add "a" ⟨some "x", none, 0⟩ "t") []
      (fun s _ => by simp)⟩

namespace SyncManager

/-- SyncQueueService.isDeleted for one entity kind: membership of the id in
that kind's tombstone list (`deletedIds[type]?.includes(id) || false`). -/
def isDeletedIn (tombs : List String) (i : String) : Bool := tombs.contains i

/-- jsMapGet models `new Map(list.map(x => [x.id, x])).get(i)`: with
duplicate keys the later entry wins, so this is the last matching element. -/
def jsMapGet (l : List Item) (i : String) : Option Item :=
  l.reverse.find? (fun x => x.id == i)

/-- jsFindIndex models `Array.prototype.findIndex`: index of the first
matching element, `none` for the `-1` result. -/
def jsFindIndex (p : Item → Bool) : List Item → Option Nat
  | [] => none
  | x :: xs => if p x then some 0 else (jsFindIndex p xs).map (· + 1)

/-- One iteration of the remote-merge loop of `SyncManager.mergeData`: for
an active remote item `r`, if no local item shares its id (looked up in the
Map built from the local list) append `r` to the merged accumulator;
otherwise, if `r` is strictly newer under the JS timestamp comparison,
replace the first merged entry with that id (when present). -/
def mergeStep (lokal : List Item) (merged : List Item) (r : Item) : List Item :=
  match jsMapGet lokal r.id with
  | none => merged ++ [r]
  | some l =>
    if tsGt r.updatedAt l.updatedAt then
      match jsFindIndex (fun c => c.id == r.id) merged with
      | some i => merged.set i r
      | none => merged
    else merged

/-- The merged list for one entity kind (applied identically to clients and
sessions): filter the remote list by the tombstones, start from a copy of
the local list, and fold the remote-merge loop over the active remote
items. -/
def mergeKind (tombs : List String) (remote lokal : List Item) : List Item :=
  (remote.filter (fun r => !(isDeletedIn tombs r.id))).foldl (mergeStep lokal) lokal

/-- Step 4 of the merge: for every original local item, enqueue a save
mutation when it has no counterpart in the (unfiltered) remote list, or when
it is strictly newer than its remote counterpart. -/
def mergeQueueAdds (kindAction : String) (remote lokal : List Item) :
    List (String × Item) :=
  lokal.filterMap (fun l =>
    match remote.find? (fun r => r.id == l.id) with
    | none => some (kindAction, l)
    | some r =>
      if tsGt l.updatedAt r.updatedAt then some (kindAction, l) else none)

/-- A remote snapshot `{clients, sessions}` with both lists present. -/
structure RemoteData where
  clients : List Item
  sessions : List Item
deriving DecidableEq, Repr

/-- The two keyed tombstone sets of locally deleted ids. -/
structure DeletedIds where
  clients : List String
  sessions : List String
deriving DecidableEq, Repr

/-- SyncManager.mergeData: the merged `{clients, sessions}` result together
with the list of save mutations the merge enqueues as a side effect (in
order: clients first, then sessions, as in the source). -/
def mergeData (del : DeletedIds) (rd : RemoteData) (lc ls : List Item) :
    RemoteData × List (String × Item) :=
  (⟨mergeKind del.clients rd.clients lc, mergeKind del.sessions rd.sessions ls⟩,
   mergeQueueAdds "saveClient" rd.clients lc ++
     mergeQueueAdds "saveSession" rd.sessions ls)

end SyncManager

/-- Modelled from the spec wording of claim C1: the timestamp value the
spec prescribes, with a missing or unparseable `updatedAt` treated as the
epoch, i.e. always "older". -/
def specTime : TimeField → Int
  | .missing => 0
  | .unparseable => 0
  | .valid t => t

/-- Modelled from the spec wording of claim C1: remote strictly newer than
local under the spec's epoch-defaulting comparison. -/
def specNewer (r l : TimeField) : Bool := decide (specTime l < specTime r)

section MergeLemmas

open SyncManager

theorem find?_eq_none_of {p : Item → Bool} {l : List Item}
    (h : ∀ y ∈ l, p y = false) : l.find? p = none :=
  List.find?_eq_none.mpr (fun x hx => by simp [h x hx])

/-- Splitting a list with pairwise-distinct ids at a member. -/
theorem ids_nodup_split {l : List Item} (h : (l.map Item.id).Nodup)
    {x : Item} (hx : x ∈ l) :
    ∃ u v, l = u ++ x :: v ∧ (∀ y ∈ u, y.id ≠ x.id) ∧
      (∀ y ∈ v, y.id ≠ x.id) := by
  obtain ⟨u, v, rfl⟩ := List.append_of_mem hx
  rw [List.map_append, List.map_cons] at h
  obtain ⟨hu, hxv, hdisj⟩ := List.nodup_append.mp h
  refine ⟨u, v, rfl, ?_, ?_⟩
  · intro y hy hyx
    exact hdisj (hyx ▸ List.mem_map_of_mem Item.id hy) (List.mem_cons_self _ _)
  · intro y hy hyx
    exact (List.nodup_cons.mp hxv).1 (hyx ▸ List.mem_map_of_mem Item.id hy)

theorem filter_id_eq_singleton {u v : List Item} {x : Item} {i : String}
    (hxi : x.id = i) (hu : ∀ y ∈ u, y.id ≠ i) (hv : ∀ y ∈ v, y.id ≠ i) :
    (u ++ x :: v).filter (fun c => c.id == i) = [x] := by
  rw [List.filter_append, List.filter_cons]
  have hu0 : u.filter (fun c => c.id == i) = [] :=
    List.filter_eq_nil_iff.mpr (fun y hy => by simp [hu y hy])
  have hv0 : v.filter (fun c => c.id == i) = [] :=
    List.filter_eq_nil_iff.mpr (fun y hy => by simp [hv y hy])
  simp [hu0, hv0, hxi]

theorem jsFindIndex_append {p : Item → Bool} {u : List Item}
    (hu : ∀ y ∈ u, p y = false) {x : Item} (v : List Item) (hx : p x = true) :
    jsFindIndex p (u ++ x :: v) = some u.length := by
  induction u with
  | nil => simp [jsFindIndex, hx]
  | cons a u ih =>
    have ha : p a = false := hu a (List.mem_cons_self _ _)
    rw [List.cons_append]
    simp [jsFindIndex, ha, ih (fun y hy => hu y (List.mem_cons_of_mem _ hy))]

theorem set_append_length (u : List Item) (x r : Item) (v : List Item) :
    (u ++ x :: v).set u.length r = u ++ r :: v := by
  induction u with
  | nil => rfl
  | cons a u ih =>
    rw [List.cons_append, List.length_cons, List.set_cons_succ, ih,
      List.cons_append]

theorem jsMapGet_split {u v : List Item} {x : Item} {i : String}
    (hxi : x.id = i) (_hu : ∀ y ∈ u, y.id ≠ i) (hv : ∀ y ∈ v, y.id ≠ i) :
    jsMapGet (u ++ x :: v) i = some x := by
  unfold jsMapGet
  rw [List.reverse_append, List.reverse_cons, List.append_assoc,
    List.find?_append]
  have hv0 : v.reverse.find? (fun c => c.id == i) = none :=
    find?_eq_none_of (fun y hy => by simp [hv y (List.mem_reverse.mp hy)])
  rw [hv0]
  simp [List.find?_append, hxi]

theorem jsFindIndex_some {p : Item → Bool} :
    ∀ {l : List Item} {n : Nat}, jsFindIndex p l = some n →
      ∃ h : n < l.length, p (l.get ⟨n, h⟩) = true := by
  intro l
  induction l with
  | nil => intro n h; simp [jsFindIndex] at h
  | cons a t ih =>
    intro n h
    by_cases hp : p a = true
    · have h0 : n = 0 := by simp [jsFindIndex, hp] at h; omega
      subst h0
      exact ⟨by simp, by simpa using hp⟩
    · cases hrec : jsFindIndex p t with
      | none => simp [jsFindIndex, hp, hrec] at h
      | some m =>
        have hmn : m + 1 = n := by simp [jsFindIndex, hp, hrec] at h; omega
        subst hmn
        obtain ⟨hlt, hpm⟩ := ih hrec
        exact ⟨by simpa using Nat.succ_lt_succ hlt, by simpa using hpm⟩

theorem filter_set_eq_of_not {pt : Item → Bool} :
    ∀ (l : List Item) (n : Nat) (r : Item) (h : n < l.length),
      pt (l.get ⟨n, h⟩) = false → pt r = false →
      (l.set n r).filter pt = l.filter pt := by
  intro l
  induction l with
  | nil => intro n r h; simp at h
  | cons a t ih =>
    intro n r h hold hr
    cases n with
    | zero =>
      simp only [List.get] at hold
      rw [List.set_cons_zero, List.filter_cons_of_neg (by simp [hr]),
        List.filter_cons_of_neg (by simp [hold])]
    | succ m =>
      have hm : m < t.length := by simpa using h
      simp only [List.get] at hold
      rw [List.set_cons_succ, List.filter_cons, List.filter_cons,
        ih m r hm hold hr]

/-- A merge-loop iteration for a remote item whose id differs from `i`
leaves the sublist of `i`-id entries untouched. -/
theorem mergeStep_filter_ne {i : String} {r : Item} (hri : r.id ≠ i)
    (lokal acc : List Item) :
    (mergeStep lokal acc r).filter (fun c => c.id == i) =
      acc.filter (fun c => c.id == i) := by
  unfold mergeStep
  split
  · rw [List.filter_append]; simp [hri]
  · split
    · split
      · next idx hfi =>
        obtain ⟨hlt, hpm⟩ := jsFindIndex_some hfi
        have hacc : acc[idx].id = r.id := by simpa using hpm
        refine filter_set_eq_of_not acc idx r hlt ?_ ?_
        · simp [hacc, hri]
        · simp [hri]
      · rfl
    · rfl

theorem foldl_mergeStep_filter_const {i : String} (lokal : List Item) :
    ∀ (rs : List Item) (acc : List Item), (∀ r ∈ rs, r.id ≠ i) →
    (rs.foldl (mergeStep lokal) acc).filter (fun c => c.id == i) =
      acc.filter (fun c => c.id == i) := by
  intro rs
  induction rs with
  | nil => intro acc _; rfl
  | cons r rs ih =>
    intro acc hall
    rw [List.foldl_cons,
      ih _ (fun x hx => hall x (List.mem_cons_of_mem _ hx)),
      mergeStep_filter_ne (hall r (List.mem_cons_self _ _)) lokal acc]

theorem eq_split_of_filter_singleton {i : String} :
    ∀ {acc : List Item} {x : Item},
      acc.filter (fun c => c.id == i) = [x] →
      ∃ u v, acc = u ++ x :: v ∧ (∀ y ∈ u, y.id ≠ i) ∧
        (∀ y ∈ v, y.id ≠ i) := by
  intro acc
  induction acc with
  | nil => intro x h; simp at h
  | cons a t ih =>
    intro x h
    rw [List.filter_cons] at h
    by_cases hp : (a.id == i) = true
    · rw [if_pos hp] at h
      obtain ⟨hax, htf⟩ := List.cons_eq_cons.mp h
      subst hax
      refine ⟨[], t, rfl, by simp, ?_⟩
      intro y hy hyi
      have : y ∈ t.filter (fun c => c.id == i) :=
        List.mem_filter.mpr ⟨hy, by simp [hyi]⟩
      rw [htf] at this
      simp at this
    · rw [if_neg hp] at h
      obtain ⟨u, v, rfl, hu, hv⟩ := ih h
      refine ⟨a :: u, v, rfl, ?_, hv⟩
      intro y hy
      rcases List.mem_cons.mp hy with rfl | hyu
      · simpa using hp
      · exact hu y hyu

end MergeLemmas

section MergeConflict

open SyncManager

/-- A merge-loop iteration that replaces: the remote item is strictly newer
and its id occurs at the found index. -/
theorem mergeStep_replace {lokal acc : List Item} {r l : Item}
    {u1 v1 : List Item}
    (hmg : jsMapGet lokal r.id = some l)
    (ht : tsGt r.updatedAt l.updatedAt = true)
    (hfi : jsFindIndex (fun c => c.id == r.id) acc = some u1.length)
    (hacc : acc = u1 ++ l :: v1) :
    mergeStep lokal acc r = u1 ++ r :: v1 := by
  unfold mergeStep
  split
  · next hnone => rw [hmg] at hnone; simp at hnone
  · next l' hsome =>
    rw [hmg] at hsome
    injection hsome with hl'
    subst hl'
    rw [if_pos ht]
    split
    · next idx hfi' =>
      rw [hfi] at hfi'
      injection hfi' with hidx
      subst hidx
      rw [hacc]
      exact set_append_length u1 l r v1
    · next hfi' => rw [hfi'] at hfi; simp at hfi

/-- A merge-loop iteration that keeps the local entry: the remote item is
not strictly newer. -/
theorem mergeStep_keep {lokal acc : List Item} {r l : Item}
    (hmg : jsMapGet lokal r.id = some l)
    (ht : ¬tsGt r.updatedAt l.updatedAt = true) :
    mergeStep lokal acc r = acc := by
  unfold mergeStep
  split
  · next hnone => rw [hmg] at hnone; simp at hnone
  · next l' hsome =>
    rw [hmg] at hsome
    injection hsome with hl'
    subst hl'
    rw [if_neg ht]

/-- Conflict resolution of the merge loop: when local and remote ids are
pairwise distinct within each snapshot and a non-tombstoned remote item
shares its id with a local item, the merged list holds exactly one entry
with that id, namely the remote item if it is strictly newer under the JS
timestamp comparison, and the unchanged local item otherwise. -/
theorem mergeKind_conflict (tombs : List String) (remote lokal : List Item)
    (hl : (lokal.map Item.id).Nodup) (hr : (remote.map Item.id).Nodup)
    {l r : Item} (hlm : l ∈ lokal) (hrm : r ∈ remote) (hid : r.id = l.id)
    (hdel : isDeletedIn tombs r.id = false) :
    (mergeKind tombs remote lokal).filter (fun c => c.id == l.id) =
      [if tsGt r.updatedAt l.updatedAt then r else l] := by
  obtain ⟨u, v, huv, hu, hv⟩ := ids_nodup_split hl hlm
  have hflocal : lokal.filter (fun c => c.id == l.id) = [l] := by
    rw [huv]; exact filter_id_eq_singleton rfl hu hv
  have hmg : jsMapGet lokal r.id = some l := by
    rw [hid, huv]; exact jsMapGet_split rfl hu hv
  suffices h : ∀ rsA : List Item, (rsA.map Item.id).Nodup → r ∈ rsA →
      (rsA.foldl (mergeStep lokal) lokal).filter (fun c => c.id == l.id) =
        [if tsGt r.updatedAt l.updatedAt then r else l] by
    have hrAnodup : ((remote.filter
        (fun x => !(isDeletedIn tombs x.id))).map Item.id).Nodup :=
      List.Nodup.sublist ((List.filter_sublist remote).map Item.id) hr
    have hrA : r ∈ remote.filter (fun x => !(isDeletedIn tombs x.id)) :=
      List.mem_filter.mpr ⟨hrm, by simp [hdel]⟩
    unfold mergeKind
    exact h _ hrAnodup hrA
  intro rsA hnodA hrA
  obtain ⟨A, B, hAB, hA, hB⟩ := ids_nodup_split hnodA hrA
  have hA' : ∀ y ∈ A, y.id ≠ l.id := fun y hy => hid ▸ hA y hy
  have hB' : ∀ y ∈ B, y.id ≠ l.id := fun y hy => hid ▸ hB y hy
  rw [hAB, List.foldl_append, List.foldl_cons]
  rw [foldl_mergeStep_filter_const lokal B _ hB']
  have hApre : (A.foldl (mergeStep lokal) lokal).filter
      (fun c => c.id == l.id) = [l] := by
    rw [foldl_mergeStep_filter_const lokal A lokal hA', hflocal]
  by_cases ht : tsGt r.updatedAt l.updatedAt = true
  · obtain ⟨u1, v1, hacc1eq, hu1, hv1⟩ := eq_split_of_filter_singleton hApre
    have hfi : jsFindIndex (fun c => c.id == r.id)
        (A.foldl (mergeStep lokal) lokal) = some u1.length := by
      rw [hacc1eq]
      refine jsFindIndex_append ?_ v1 ?_
      · intro y hy
        have := hu1 y hy
        rw [hid]
        simp [this]
      · simp [hid]
    rw [mergeStep_replace hmg ht hfi hacc1eq, if_pos ht]
    exact filter_id_eq_singleton hid hu1 hv1
  · rw [mergeStep_keep hmg ht, if_neg ht, hApre]

/-- The tombstone filter keeps the merge loop away from a tombstoned id:
the merged list's entries carrying that id are exactly the local input's
entries carrying it. -/
theorem mergeKind_tombstone (tombs : List String) (remote lokal : List Item)
    {t : String} (ht : t ∈ tombs) :
    (mergeKind tombs remote lokal).filter (fun c => c.id == t) =
      lokal.filter (fun c => c.id == t) := by
  unfold mergeKind
  apply foldl_mergeStep_filter_const
  intro r hr hrt
  have h2 := (List.mem_filter.mp hr).2
  rw [hrt] at h2
  unfold isDeletedIn at h2
  have : tombs.contains t = true := List.elem_eq_true_of_mem ht
  rw [this] at h2
  simp at h2

end MergeConflict

/-- Claim C1 counterexample: the claim's comparison treats an unparseable
`updatedAt` as the epoch (always older), so with a local item whose
timestamp is unparseable and a remote counterpart with a valid positive
timestamp the claim requires the merged result to contain the remote
version — yet the code's `NaN` comparison is false and the merge keeps the
(distinct) local item. -/
theorem claim_C1_counterexample :
    specNewer (TimeField.valid 1) TimeField.unparseable = true ∧
    (SyncManager.mergeData ⟨[], []⟩ ⟨[⟨"a", TimeField.valid 1, 1⟩], []⟩
        [⟨"a", TimeField.unparseable, 0⟩] []).1.clients
      = [⟨"a", TimeField.unparseable, 0⟩] ∧
    (⟨"a", TimeField.valid 1, 1⟩ : Item) ≠ ⟨"a", TimeField.unparseable, 0⟩ := by
  decide

/-- Claim C1 (amended): for every merge call and each entity kind, with ids
unique within the local list and within the remote snapshot, when a local
item and a non-tombstoned remote item share an id, the merged list holds
exactly one entry with that id: the remote version iff the JS timestamp
comparison says remote is strictly newer (a missing timestamp is the epoch;
an unparseable timestamp is NaN, so the comparison is false and the local
version is kept), and otherwise — equal, older, or unparseable on either
side — the unchanged local version. -/
theorem claim_C1_newer_wins (del : SyncManager.DeletedIds)
    (rd : SyncManager.RemoteData) (lc ls : List Item) :
    (∀ l r : Item, (lc.map Item.id).Nodup → (rd.clients.map Item.id).Nodup →
      l ∈ lc → r ∈ rd.clients → r.id = l.id →
      SyncManager.isDeletedIn del.clients r.id = false →
      ((SyncManager.mergeData del rd lc ls).1.clients.filter
          (fun c => c.id == l.id))
        = [if tsGt r.updatedAt l.updatedAt then r else l]) ∧
    (∀ l r : Item, (ls.map Item.id).Nodup → (rd.sessions.map Item.id).Nodup →
      l ∈ ls → r ∈ rd.sessions → r.id = l.id →
      SyncManager.isDeletedIn del.sessions r.id = false →
      ((SyncManager.mergeData del rd lc ls).1.sessions.filter
          (fun c => c.id == l.id))
        = [if tsGt r.updatedAt l.updatedAt then r else l]) := by
  constructor
  · intro l r hl hr hlm hrm hid hdel
    exact mergeKind_conflict del.clients rd.clients lc hl hr hlm hrm hid hdel
  · intro l r hl hr hlm hrm hid hdel
    exact mergeKind_conflict del.sessions rd.sessions ls hl hr hlm hrm hid hdel

/-- Claim C1 witness: the amended theorem at a concrete strictly-newer
remote client. -/
theorem claim_C1_newer_wins_witness :
    ((SyncManager.mergeData ⟨[], []⟩ ⟨[⟨"a", TimeField.valid 5, 1⟩], []⟩
        [⟨"a", TimeField.valid 0, 0⟩] []).1.clients.filter
        (fun c => c.id == "a"))
      = [if tsGt (TimeField.valid 5) (TimeField.valid 0) then
            (⟨"a", TimeField.valid 5, 1⟩ : Item)
          else ⟨"a", TimeField.valid 0, 0⟩] :=
  (claim_C1_newer_wins ⟨[], []⟩ ⟨[⟨"a", TimeField.valid 5, 1⟩], []⟩
      [⟨"a", TimeField.valid 0, 0⟩] []).1
    ⟨"a", TimeField.valid 0, 0⟩ ⟨"a", TimeField.valid 5, 1⟩
    (by decide) (by decide) (by decide) (by decide) (by decide) (by decide)

/-- Claim C2 counterexample: with id "a" tombstoned for clients and a local
input list still carrying an item with id "a", the merged output contains
an item with the tombstoned id (the merge starts from a copy of the local
list and tombstones only filter the remote side). -/
theorem claim_C2_counterexample :
    ("a" ∈ (SyncManager.DeletedIds.mk ["a"] []).clients) ∧
    ((SyncManager.mergeData ⟨["a"], []⟩ ⟨[], []⟩
        [⟨"a", TimeField.missing, 0⟩] []).1.clients.any
        (fun c => c.id == "a")) = true := by
  decide

/-- Claim C2 (amended): for every merge call and each entity kind, a
tombstoned id never enters the merged output from the remote side: the
merged list's entries carrying that id are exactly the unchanged entries of
the local input list carrying it (so whenever the local input does not
carry the id, the output does not either, regardless of timestamps). -/
theorem claim_C2_tombstone_exclusion (del : SyncManager.DeletedIds)
    (rd : SyncManager.RemoteData) (lc ls : List Item) (t : String) :
    (t ∈ del.clients →
      ((SyncManager.mergeData del rd lc ls).1.clients.filter
          (fun c => c.id == t))
        = lc.filter (fun c => c.id == t)) ∧
    (t ∈ del.sessions →
      ((SyncManager.mergeData del rd lc ls).1.sessions.filter
          (fun c => c.id == t))
        = ls.filter (fun c => c.id == t)) :=
  ⟨fun ht => mergeKind_tombstone del.clients rd.clients lc ht,
   fun ht => mergeKind_tombstone del.sessions rd.sessions ls ht⟩

/-- Claim C2 witness: the amended theorem at a concrete tombstoned id, with
a remote item carrying that id and an empty local list: the merged output
does not contain it. -/
theorem claim_C2_tombstone_exclusion_witness :
    ((SyncManager.mergeData ⟨["a"], []⟩ ⟨[⟨"a", TimeField.valid 9, 7⟩], []⟩
        [] []).1.clients.filter (fun c => c.id == "a"))
      = ([] : List Item).filter (fun c => c.id == "a") :=
  (claim_C2_tombstone_exclusion ⟨["a"], []⟩ ⟨[⟨"a", TimeField.valid 9, 7⟩], []⟩
      [] [] "a").1 (by decide)

namespace GoogleSheetsService

/-- JS `s.substring(0, n)`: the first `n` characters of the string. -/
def strTake (s : String) (n : Nat) : String := ⟨s.data.take n⟩

/-- GoogleSheetsService truncateDataForUrl: a notes field longer than 500
characters is cut to its first 500 characters plus the ellipsis marker
(an empty or missing notes field is left alone). -/
def truncateDataForUrl (d : Data) : Data :=
  match d.notes with
  | some s =>
    if s.length > 500 then { d with notes := some (strTake s 500 ++ "...") } else d
  | none => d

/-- The second-stage truncation of GoogleSheetsService pushData: when the
notes field is defined, cut it to its first 200 characters (the source's
`notes ? notes.substring(0, 200) : ''` — for an empty string both branches
yield the empty string). -/
def shortenNotes (d : Data) : Data :=
  match d.notes with
  | none => d
  | some s => { d with notes := some (strTake s 200) }

/-- GoogleSheetsService pushData, with the encoded-request length
(`#buildUrl(action, data).length`) abstracted as `urlLen` and the remote
response of `#executeRequest` as `sendOk`; returns the boolean result and
the list of requests actually sent. Unconfigured service: `false` without
sending. Over-budget after first-stage truncation: shorten notes to 200
characters and retry once; still over budget: `false` without sending. -/
def pushData (configured : Bool) (maxUrlLength : Nat)
    (urlLen : String → Data → Nat) (sendOk : String → Data → Bool)
    (action : String) (d : Data) : Bool × List (String × Data) :=
  if !configured then (false, [])
  else
    let td := truncateDataForUrl d
    if urlLen action td > maxUrlLength then
      let td2 := shortenNotes td
      if urlLen action td2 > maxUrlLength then (false, [])
      else (sendOk action td2, [(action, td2)])
    else (sendOk action td, [(action, td)])

/-- GoogleSheetsService.saveClient. -/
def saveClient (configured : Bool) (maxUrlLength : Nat)
    (urlLen : String → Data → Nat) (sendOk : String → Data → Bool)
    (client : Data) : Bool × List (String × Data) :=
  pushData configured maxUrlLength urlLen sendOk "saveClient" client

/-- GoogleSheetsService.saveSession. -/
def saveSession (configured : Bool) (maxUrlLength : Nat)
    (urlLen : String → Data → Nat) (sendOk : String → Data → Bool)
    (session : Data) : Bool × List (String × Data) :=
  pushData configured maxUrlLength urlLen sendOk "saveSession" session

/-- GoogleSheetsService.deleteClient: a `{ id }` payload. -/
def deleteClient (configured : Bool) (maxUrlLength : Nat)
    (urlLen : String → Data → Nat) (sendOk : String → Data → Bool)
    (i : String) : Bool × List (String × Data) :=
  pushData configured maxUrlLength urlLen sendOk "deleteClient" ⟨some i, none, 0⟩

/-- GoogleSheetsService.deleteSession: a `{ id }` payload. -/
def deleteSession (configured : Bool) (maxUrlLength : Nat)
    (urlLen : String → Data → Nat) (sendOk : String → Data → Bool)
    (i : String) : Bool × List (String × Data) :=
  pushData configured maxUrlLength urlLen sendOk "deleteSession" ⟨some i, none, 0⟩

end GoogleSheetsService

/-- Claim C6: for a configured service and a notes field longer than 500
characters, (a) first-stage truncation yields the first 500 characters plus
the ellipsis marker; (b) if the encoded request fits the budget it is sent
with those truncated notes; (c) if still over budget, notes are shortened
to 200 characters and the encoding retried once; (d) if the re-encoded
request is still over budget the operation returns false with no request
sent. -/
theorem claim_C6_notes_truncation (maxUrlLength : Nat)
    (urlLen : String → Data → Nat) (sendOk : String → Data → Bool)
    (action : String) (d : Data) (s : String)
    (hn : d.notes = some s) (hlen : s.length > 500) :
    (GoogleSheetsService.truncateDataForUrl d
      = { d with notes := some (GoogleSheetsService.strTake s 500 ++ "...") }) ∧
    (urlLen action { d with notes := some (GoogleSheetsService.strTake s 500 ++ "...") } ≤ maxUrlLength →
      GoogleSheetsService.pushData true maxUrlLength urlLen sendOk action d
        = (sendOk action { d with notes := some (GoogleSheetsService.strTake s 500 ++ "...") },
           [(action, { d with notes := some (GoogleSheetsService.strTake s 500 ++ "...") })])) ∧
    (urlLen action { d with notes := some (GoogleSheetsService.strTake s 500 ++ "...") } > maxUrlLength →
      urlLen action { d with notes := some (GoogleSheetsService.strTake (GoogleSheetsService.strTake s 500 ++ "...") 200) }
          ≤ maxUrlLength →
      GoogleSheetsService.pushData true maxUrlLength urlLen sendOk action d
        = (sendOk action { d with notes := some (GoogleSheetsService.strTake (GoogleSheetsService.strTake s 500 ++ "...") 200) },
           [(action, { d with notes := some (GoogleSheetsService.strTake (GoogleSheetsService.strTake s 500 ++ "...") 200) })])) ∧
    (urlLen action { d with notes := some (GoogleSheetsService.strTake s 500 ++ "...") } > maxUrlLength →
      urlLen action { d with notes := some (GoogleSheetsService.strTake (GoogleSheetsService.strTake s 500 ++ "...") 200) }
          > maxUrlLength →
      GoogleSheetsService.pushData true maxUrlLength urlLen sendOk action d
        = (false, [])) := by
  have ha : GoogleSheetsService.truncateDataForUrl d
      = { d with notes := some (GoogleSheetsService.strTake s 500 ++ "...") } := by
    simp [GoogleSheetsService.truncateDataForUrl, hn, hlen]
  have hb : GoogleSheetsService.shortenNotes
      { d with notes := some (GoogleSheetsService.strTake s 500 ++ "...") }
      = { d with notes := some (GoogleSheetsService.strTake (GoogleSheetsService.strTake s 500 ++ "...") 200) } := by
    simp [GoogleSheetsService.shortenNotes]
  refine ⟨ha, ?_, ?_, ?_⟩
  · intro h1
    simp only [GoogleSheetsService.pushData, ha, hb, Bool.not_true]
    rw [if_neg (by simp), if_neg (by omega)]
  · intro h1 h2
    simp only [GoogleSheetsService.pushData, ha, hb, Bool.not_true]
    rw [if_neg (by simp), if_pos h1, if_neg (by omega)]
  · intro h1 h2
    simp only [GoogleSheetsService.pushData, ha, hb, Bool.not_true]
    rw [if_neg (by simp), if_pos h1, if_pos h2]

/-- A 501-character notes string for the C6 witness. -/
def c6s : String := ⟨List.replicate 501 'a'⟩

/-- A save payload whose notes are 501 characters long. -/
def c6d : Data := ⟨none, some c6s, 0⟩

/-- A concrete encoded-request length function: the length of the notes
field. -/
def c6len : String → Data → Nat := fun _ dd =>
  match dd.notes with
  | some t => t.length
  | none => 0

/-- Claim C6 witness: the truncation theorem applied at a concrete
over-500-character notes payload under the default budget: the request is
sent once, with notes cut to 500 characters plus the ellipsis marker. -/
theorem claim_C6_notes_truncation_witness :
    GoogleSheetsService.pushData true 1800 c6len (fun _ _ => true) "saveClient" c6d
      = (true, [("saveClient", { c6d with notes := some (GoogleSheetsService.strTake c6s 500 ++ "...") })]) :=
  (claim_C6_notes_truncation 1800 c6len (fun _ _ => true) "saveClient" c6d c6s
      rfl (by decide)).2.1 (by decide)

namespace SyncManager

/-- SyncManager.pushChange: always enqueue first; when online and
configured, attempt the immediate remote apply (`#executePush`, abstracted
as `remoteOk`), removing the queue entry by `data.id` on success. Returns
the `{success, queued}` result, the resulting queue, and the remote calls
attempted. -/
def pushChange (online configured : Bool) (remoteOk : String → Data → Bool)
    (q : List Entry) (action : String) (d : Data) (ts : String) :
    (Bool × Bool) × List Entry × List (String × Data) :=
  let q1 := SyncQueueService.add q action d ts
  if online && configured then
    if remoteOk action d then
      ((true, false), SyncQueueService.removeById q1 d.id, [(action, d)])
    else ((false, true), q1, [(action, d)])
  else ((false, true), q1, [])

end SyncManager

/-- Removing by an id leaves no entry with that id. -/
theorem removeById_filter_self (q : List Entry) (i : Option String) :
    (SyncQueueService.removeById q i).filter (fun e => e.data.id == i) = [] := by
  unfold SyncQueueService.removeById
  rw [List.filter_filter]
  apply List.filter_eq_nil_iff.mpr
  intro e _
  cases e.data.id == i <;> simp

/-- Claim C5: for a truthy data id, (a) offline or unconfigured: the change
is enqueued (exactly one queue entry for that id), no remote call is made,
and the result is `{success:false, queued:true}`; (b) online, configured
and the remote apply succeeds: the enqueued entry is removed again by id,
one remote call is made, and the result is `{success:true, queued:false}`;
(c) online, configured and the remote apply fails: the entry stays queued
(exactly one entry for that id) and the result is
`{success:false, queued:true}`. -/
theorem claim_C5_push_fallback (online configured : Bool)
    (remoteOk : String → Data → Bool) (q : List Entry)
    (action : String) (d : Data) (ts : String) (ht : truthy d.id = true) :
    ((online = false ∨ configured = false) →
      SyncManager.pushChange online configured remoteOk q action d ts
        = ((false, true), SyncQueueService.add q action d ts, []) ∧
      (SyncQueueService.add q action d ts).filter
          (fun e => e.data.id == d.id) = [⟨action, d, ts⟩]) ∧
    (online = true → configured = true → remoteOk action d = true →
      SyncManager.pushChange online configured remoteOk q action d ts
        = ((true, false),
           SyncQueueService.removeById (SyncQueueService.add q action d ts) d.id,
           [(action, d)]) ∧
      (SyncQueueService.removeById (SyncQueueService.add q action d ts) d.id).filter
          (fun e => e.data.id == d.id) = []) ∧
    (online = true → configured = true → remoteOk action d = false →
      SyncManager.pushChange online configured remoteOk q action d ts
        = ((false, true), SyncQueueService.add q action d ts, [(action, d)]) ∧
      (SyncQueueService.add q action d ts).filter
          (fun e => e.data.id == d.id) = [⟨action, d, ts⟩]) := by
  refine ⟨?_, ?_, ?_⟩
  · intro hoff
    have hcond : (online && configured) = false := by
      rcases hoff with h | h <;> simp [h]
    refine ⟨?_, add_filter_truthy q action d ts ht⟩
    simp [SyncManager.pushChange, hcond]
  · intro hon hconf hok
    subst hon; subst hconf
    refine ⟨?_, removeById_filter_self _ d.id⟩
    simp [SyncManager.pushChange, hok]
  · intro hon hconf hfail
    subst hon; subst hconf
    refine ⟨?_, add_filter_truthy q action d ts ht⟩
    simp [SyncManager.pushChange, hfail]

/-- Claim C5 witness: the fallback theorem applied offline at a concrete
change. -/
theorem claim_C5_push_fallback_witness :
    SyncManager.pushChange false true (fun _ _ => true) []
        "saveClient" ⟨some "c1", none, 3⟩ "t"
      = ((false, true), SyncQueueService.add [] "saveClient" ⟨some "c1", none, 3⟩ "t", []) ∧
    (SyncQueueService.add [] "saveClient" ⟨some "c1", none, 3⟩ "t").filter
        (fun e => e.data.id == some "c1")
      = [⟨"saveClient", ⟨some "c1", none, 3⟩, "t"⟩] :=
  (claim_C5_push_fallback false true (fun _ _ => true) []
      "saveClient" ⟨some "c1", none, 3⟩ "t" (by decide)).1 (Or.inl rfl)

/-- Claim C10: an online `pushChange` whose data has no id, when the remote
apply succeeds, removes by `data.id = undefined`, which strips every
id-less entry from the queue — the one just enqueued and every unrelated
id-less entry queued before the call. -/
theorem claim_C10_idless_removal (remoteOk : String → Data → Bool)
    (q : List Entry) (action : String) (d : Data) (ts : String)
    (hid : d.id = none) (hok : remoteOk action d = true) :
    SyncManager.pushChange true true remoteOk q action d ts
      = ((true, false), q.filter (fun e => !(e.data.id == none)), [(action, d)]) ∧
    ∀ e ∈ (SyncManager.pushChange true true remoteOk q action d ts).2.1,
      e.data.id ≠ none := by
  have hq1 : SyncQueueService.add q action d ts = q ++ [⟨action, d, ts⟩] :=
    add_falsy_append q action d ts (by simp [truthy, hid])
  have hmain : SyncManager.pushChange true true remoteOk q action d ts
      = ((true, false), q.filter (fun e => !(e.data.id == none)), [(action, d)]) := by
    simp only [SyncManager.pushChange, hq1, hok, Bool.and_self, if_pos]
    unfold SyncQueueService.removeById
    rw [hid, List.filter_append]
    simp [hid]
  refine ⟨hmain, ?_⟩
  rw [hmain]
  intro e he
  have := (List.mem_filter.mp he).2
  simpa using this

/-- Claim C10 witness: the removal theorem at a queue already holding an
unrelated id-less entry: the resulting queue drops both id-less entries but
keeps the entry that has an id. -/
theorem claim_C10_idless_removal_witness :
    SyncManager.pushChange true true (fun _ _ => true)
        [⟨"syncAll", ⟨none, none, 5⟩, "t0"⟩, ⟨"saveClient", ⟨some "c1", none, 6⟩, "t1"⟩]
        "syncAll" ⟨none, none, 7⟩ "t2"
      = ((true, false),
         ([⟨"syncAll", ⟨none, none, 5⟩, "t0"⟩,
           ⟨"saveClient", ⟨some "c1", none, 6⟩, "t1"⟩] : List Entry).filter
           (fun e => !(e.data.id == none)),
         [("syncAll", ⟨none, none, 7⟩)]) :=
  (claim_C10_idless_removal (fun _ _ => true)
      [⟨"syncAll", ⟨none, none, 5⟩, "t0"⟩, ⟨"saveClient", ⟨some "c1", none, 6⟩, "t1"⟩]
      "syncAll" ⟨none, none, 7⟩ "t2" rfl rfl).1

namespace SyncManager

/-- A remote snapshot as parsed JSON: either list may be missing, matching
the `!remoteData.clients || !remoteData.sessions` guard in `sync` (a
present empty array is truthy in JS and passes the guard). -/
structure RemoteDataJs where
  clients : Option (List Item)
  sessions : Option (List Item)
deriving DecidableEq, Repr

/-- The orchestrator state relevant to a sync cycle. -/
structure SyncState where
  isOnline : Bool
  configured : Bool
  isSyncing : Bool
  queue : List Entry
  deleted : DeletedIds
deriving DecidableEq, Repr

/-- Outcomes of the awaited sub-steps of a sync cycle, each allowed to
reject (`Except.error`) so that the `try/catch/finally` of `sync` is
exercised: the queue drain's resulting queue, the `init` result (ignored
by the source), and the fetched remote snapshot (`none` models the
`getData` failure sentinel). `now` is the capture timestamp for queue
entries enqueued by the merge. -/
structure SyncEnv where
  drainRes : Except Unit (List Entry)
  initRes : Except Unit Bool
  fetchRes : Except Unit (Option RemoteDataJs)
  now : String

/-- Trace tags for the work a sync cycle performed. -/
inductive SyncCall where
  | drain
  | init
  | fetch
  | merge
deriving DecidableEq, Repr

/-- An entity record embedded as a queue payload for the merge's
`save<Kind>` enqueues. -/
def embedItem (it : Item) : Data := ⟨some it.id, none, it.payload⟩

/-- SyncManager.sync: the re-entrancy/offline/unconfigured guard returns
the null sentinel without doing any work; otherwise the in-progress flag is
set, the queue drained (a no-op on an empty queue, as in `#processQueue`),
`init` and `getData` awaited, the cycle aborted with null on the fetch
failure sentinel or a missing list, and otherwise the merge computed and
its enqueues applied. Any rejection of a sub-step is caught and converted
to a null return, and the in-progress flag is false again on every
post-guard exit path (the `finally`). -/
def sync (env : SyncEnv) (st : SyncState) (lc ls : List Item) :
    Option RemoteData × SyncState × List SyncCall :=
  if !st.isOnline || !st.configured || st.isSyncing then (none, st, [])
  else
    let st1 : SyncState := { st with isSyncing := true }
    let drainStep : Except Unit (List Entry) :=
      if st1.queue.isEmpty then .ok st1.queue else env.drainRes
    match drainStep with
    | .error _ => (none, { st1 with isSyncing := false }, [.drain])
    | .ok q1 =>
      let st2 : SyncState := { st1 with queue := q1 }
      match env.initRes with
      | .error _ => (none, { st2 with isSyncing := false }, [.drain, .init])
      | .ok _ =>
        match env.fetchRes with
        | .error _ =>
          (none, { st2 with isSyncing := false }, [.drain, .init, .fetch])
        | .ok none =>
          (none, { st2 with isSyncing := false }, [.drain, .init, .fetch])
        | .ok (some rjs) =>
          match rjs.clients, rjs.sessions with
          | some rc, some rs =>
            let m := mergeData st2.deleted ⟨rc, rs⟩ lc ls
            let q2 := m.2.foldl
              (fun qq ad =>
                SyncQueueService.add qq ad.1 (embedItem ad.2) env.now) q1
            (some m.1, { st2 with queue := q2, isSyncing := false },
             [.drain, .init, .fetch, .merge])
          | _, _ =>
            (none, { st2 with isSyncing := false }, [.drain, .init, .fetch])

end SyncManager

/-- Claim C7: a sync cycle (a) returns the null sentinel without doing any
work when offline, unconfigured, or already in progress; (b) returns null
when the remote fetch yields the failure sentinel; (c) leaves the
in-progress flag false on every exit path of a started cycle, for every
environment, including rejecting sub-steps — and, the model being a total
function, never propagates an exception to its caller. -/
theorem claim_C7_sync_guards (env : SyncManager.SyncEnv)
    (st : SyncManager.SyncState) (lc ls : List Item) :
    ((st.isOnline = false ∨ st.configured = false ∨ st.isSyncing = true) →
      SyncManager.sync env st lc ls = (none, st, [])) ∧
    (st.isOnline = true → st.configured = true → st.isSyncing = false →
      env.fetchRes = .ok none →
      (SyncManager.sync env st lc ls).1 = none) ∧
    (st.isOnline = true → st.configured = true → st.isSyncing = false →
      (SyncManager.sync env st lc ls).2.1.isSyncing = false) := by
  refine ⟨?_, ?_, ?_⟩
  · intro h
    rcases h with h | h | h <;> simp [SyncManager.sync, h]
  · intro hon hconf hsy hf
    cases hq : st.queue.isEmpty <;>
      rcases hdr : env.drainRes with e | q1 <;>
      rcases hin : env.initRes with e2 | b <;>
      simp [SyncManager.sync, hon, hconf, hsy, hq, hdr, hin, hf]
  · intro hon hconf hsy
    cases hq : st.queue.isEmpty <;>
      rcases hdr : env.drainRes with e | q1 <;>
      rcases hin : env.initRes with e2 | b <;>
      rcases hfr : env.fetchRes with e3 | ro
    all_goals try rcases ro with _ | ⟨oc, os⟩
    all_goals try rcases oc with _ | rc
    all_goals try rcases os with _ | rs
    all_goals simp [SyncManager.sync, hon, hconf, hsy, hq, hdr, hin, hfr]

/-- Claim C7 witness: the guard theorem applied to an offline state. -/
theorem claim_C7_sync_guards_witness :
    SyncManager.sync ⟨.ok [], .ok true, .ok none, "t"⟩
        ⟨false, true, false, [], ⟨[], []⟩⟩ [] []
      = (none, ⟨false, true, false, [], ⟨[], []⟩⟩, []) :=
  (claim_C7_sync_guards ⟨.ok [], .ok true, .ok none, "t"⟩
      ⟨false, true, false, [], ⟨[], []⟩⟩ [] []).1 (Or.inl rfl)

namespace SyncManager

/-- A store of JS array objects: the index is the object identity, the
element its current contents. -/
abbrev Store := List (List Item)

/-- Reading an array object. -/
def readA (st : Store) (ref : Nat) : List Item := st.getD ref []

/-- Overwriting the contents of an array object in place (same identity). -/
def writeA (st : Store) (ref : Nat) (v : List Item) : Store := st.set ref v

/-- Allocating a fresh array object (as the spread copies
`[...localClients]` / `[...localSessions]` do). -/
def allocA (st : Store) (v : List Item) : Nat × Store := (st.length, st ++ [v])

/-- The remote-merge loop of `mergeData` acting on the merged array object
in place: each iteration reads the array, applies `mergeStep`, and writes
the result back to the same object (`mergedClients[index] = remoteClient`
and `mergedClients.push(...)` mutate the same array object). -/
def mergeKindHeap (lokal : List Item) (rsA : List Item) (st : Store)
    (ref : Nat) : Store :=
  rsA.foldl (fun σ r => writeA σ ref (mergeStep lokal (readA σ ref) r)) st

/-- SyncManager.mergeData on the array store: read the local arrays,
allocate the merged arrays as fresh spread copies, and run the two merge
loops in place on the fresh objects; returns the references of the merged
arrays and the final store. The local input arrays are only ever read. -/
def mergeDataHeap (del : DeletedIds) (rd : RemoteData) (st : Store)
    (lcRef lsRef : Nat) : (Nat × Nat) × Store :=
  let lc := readA st lcRef
  let ls := readA st lsRef
  let a1 := allocA st lc
  let a2 := allocA a1.2 ls
  let st3 := mergeKindHeap lc
    (rd.clients.filter (fun r => !(isDeletedIn del.clients r.id))) a2.2 a1.1
  let st4 := mergeKindHeap ls
    (rd.sessions.filter (fun r => !(isDeletedIn del.sessions r.id))) st3 a2.1
  ((a1.1, a2.1), st4)

end SyncManager

section HeapLemmas

open SyncManager

theorem length_writeA (st : Store) (ref : Nat) (v : List Item) :
    (writeA st ref v).length = st.length := by
  simp [writeA]

theorem readA_writeA_same : ∀ (st : Store) (ref : Nat) (v : List Item),
    ref < st.length → readA (writeA st ref v) ref = v := by
  intro st
  induction st with
  | nil => intro ref v h; simp at h
  | cons a t ih =>
    intro ref v h
    cases ref with
    | zero => rfl
    | succ m =>
      have hm : m < t.length := by simpa using h
      simpa [readA, writeA, List.getD] using ih m v hm

theorem readA_writeA_other : ∀ (st : Store) (ref ref' : Nat) (v : List Item),
    ref ≠ ref' → readA (writeA st ref v) ref' = readA st ref' := by
  intro st
  induction st with
  | nil => intro ref ref' v _; rfl
  | cons a t ih =>
    intro ref ref' v hne
    cases ref with
    | zero =>
      cases ref' with
      | zero => exact absurd rfl hne
      | succ m => rfl
    | succ n =>
      cases ref' with
      | zero => rfl
      | succ m =>
        have hnm : n ≠ m := fun hc => hne (by rw [hc])
        simpa [readA, writeA, List.getD] using ih n m v hnm

theorem set_readA_self : ∀ (st : Store) (ref : Nat), ref < st.length →
    st.set ref (readA st ref) = st := by
  intro st
  induction st with
  | nil => intro ref h; simp at h
  | cons a t ih =>
    intro ref h
    cases ref with
    | zero => rfl
    | succ m =>
      have hm : m < t.length := by simpa using h
      have := ih m hm
      simpa [readA, List.getD] using congrArg (a :: ·) this

theorem mergeKindHeap_eq (lokal : List Item) :
    ∀ (rsA : List Item) (st : Store) (ref : Nat), ref < st.length →
      mergeKindHeap lokal rsA st ref =
        writeA st ref (rsA.foldl (mergeStep lokal) (readA st ref)) := by
  intro rsA
  induction rsA with
  | nil =>
    intro st ref h
    simpa [mergeKindHeap, writeA] using (set_readA_self st ref h).symm
  | cons r rs ih =>
    intro st ref h
    have h1 : ref < (writeA st ref
        (mergeStep lokal (readA st ref) r)).length := by
      rwa [length_writeA]
    calc mergeKindHeap lokal (r :: rs) st ref
        = mergeKindHeap lokal rs
            (writeA st ref (mergeStep lokal (readA st ref) r)) ref := rfl
      _ = writeA (writeA st ref (mergeStep lokal (readA st ref) r)) ref
            (rs.foldl (mergeStep lokal)
              (readA (writeA st ref (mergeStep lokal (readA st ref) r)) ref)) :=
          ih _ ref h1
      _ = writeA st ref (rs.foldl (mergeStep lokal)
            (mergeStep lokal (readA st ref) r)) := by
          rw [readA_writeA_same st ref _ h]
          simp [writeA, List.set_set]
      _ = writeA st ref ((r :: rs).foldl (mergeStep lokal) (readA st ref)) := rfl

theorem readA_append_self : ∀ (st : Store) (v : List Item) (rest : Store),
    readA (st ++ v :: rest) st.length = v := by
  intro st
  induction st with
  | nil => intro v rest; rfl
  | cons a t ih => intro v rest; simpa [readA, List.getD] using ih v rest

theorem readA_append_lt : ∀ (st rest : Store) (ref : Nat),
    ref < st.length → readA (st ++ rest) ref = readA st ref := by
  intro st
  induction st with
  | nil => intro rest ref h; simp at h
  | cons a t ih =>
    intro rest ref h
    cases ref with
    | zero => rfl
    | succ m =>
      have hm : m < t.length := by simpa using h
      simpa [readA, List.getD] using ih rest m hm

end HeapLemmas

section HeapMerge

open SyncManager

/-- Closed form of the heap merge: two fresh arrays are allocated after the
existing store and all writes target only those two references. -/
theorem mergeDataHeap_spec (del : DeletedIds) (rd : RemoteData) (st : Store)
    (lcRef lsRef : Nat) (_hlc : lcRef < st.length) (_hls : lsRef < st.length) :
    mergeDataHeap del rd st lcRef lsRef
      = ((st.length, st.length + 1),
         writeA (writeA (st ++ [readA st lcRef, readA st lsRef]) st.length
             (mergeKind del.clients rd.clients (readA st lcRef)))
           (st.length + 1) (mergeKind del.sessions rd.sessions (readA st lsRef))) := by
  have hassoc : (st ++ [readA st lcRef]) ++ [readA st lsRef]
      = st ++ [readA st lcRef, readA st lsRef] := by
    simp
  have hmcLt : st.length < (st ++ [readA st lcRef, readA st lsRef]).length := by
    simp
  have hreadMc : readA (st ++ [readA st lcRef, readA st lsRef]) st.length
      = readA st lcRef := readA_append_self st (readA st lcRef) [readA st lsRef]
  have hreadMs : readA (st ++ [readA st lcRef, readA st lsRef]) (st.length + 1)
      = readA st lsRef := by
    have := readA_append_self (st ++ [readA st lcRef]) (readA st lsRef) []
    simpa [hassoc] using this
  simp only [mergeDataHeap, allocA, hassoc]
  have hlen1 : (st ++ [readA st lcRef]).length = st.length + 1 := by simp
  rw [hlen1]
  have hst3 : mergeKindHeap (readA st lcRef)
      (rd.clients.filter (fun r => !(isDeletedIn del.clients r.id)))
      (st ++ [readA st lcRef, readA st lsRef]) st.length
      = writeA (st ++ [readA st lcRef, readA st lsRef]) st.length
          (mergeKind del.clients rd.clients (readA st lcRef)) := by
    rw [mergeKindHeap_eq _ _ _ _ hmcLt, hreadMc]
    rfl
  rw [hst3]
  have hmsLt : st.length + 1 < (writeA (st ++ [readA st lcRef, readA st lsRef])
      st.length (mergeKind del.clients rd.clients (readA st lcRef))).length := by
    rw [length_writeA]
    simp
  rw [mergeKindHeap_eq _ _ _ _ hmsLt,
    readA_writeA_other _ _ _ _ (by omega), hreadMs]
  rfl

/-- Claim C8: the merge never mutates the input collections: after the
call, the local arrays passed in hold exactly their original contents, the
merged results live in newly allocated arrays distinct from the inputs (and
from each other), and those fresh arrays hold exactly the pure merge
results. -/
theorem claim_C8_no_input_mutation (del : DeletedIds) (rd : RemoteData)
    (st : Store) (lcRef lsRef : Nat)
    (hlc : lcRef < st.length) (hls : lsRef < st.length) :
    readA (mergeDataHeap del rd st lcRef lsRef).2 lcRef = readA st lcRef ∧
    readA (mergeDataHeap del rd st lcRef lsRef).2 lsRef = readA st lsRef ∧
    (mergeDataHeap del rd st lcRef lsRef).1.1 ≠ lcRef ∧
    (mergeDataHeap del rd st lcRef lsRef).1.1 ≠ lsRef ∧
    (mergeDataHeap del rd st lcRef lsRef).1.2 ≠ lcRef ∧
    (mergeDataHeap del rd st lcRef lsRef).1.2 ≠ lsRef ∧
    (mergeDataHeap del rd st lcRef lsRef).1.1
      ≠ (mergeDataHeap del rd st lcRef lsRef).1.2 ∧
    readA (mergeDataHeap del rd st lcRef lsRef).2
        (mergeDataHeap del rd st lcRef lsRef).1.1
      = mergeKind del.clients rd.clients (readA st lcRef) ∧
    readA (mergeDataHeap del rd st lcRef lsRef).2
        (mergeDataHeap del rd st lcRef lsRef).1.2
      = mergeKind del.sessions rd.sessions (readA st lsRef) := by
  rw [mergeDataHeap_spec del rd st lcRef lsRef hlc hls]
  dsimp only
  have hmcLt : st.length < (st ++ [readA st lcRef, readA st lsRef]).length := by
    simp
  refine ⟨?_, ?_, by omega, by omega, by omega, by omega, by omega, ?_, ?_⟩
  · rw [readA_writeA_other _ _ _ _ (by omega),
      readA_writeA_other _ _ _ _ (by omega),
      readA_append_lt st _ lcRef hlc]
  · rw [readA_writeA_other _ _ _ _ (by omega),
      readA_writeA_other _ _ _ _ (by omega),
      readA_append_lt st _ lsRef hls]
  · rw [readA_writeA_other _ _ _ _ (by omega),
      readA_writeA_same _ _ _ hmcLt]
  · rw [readA_writeA_same _ _ _ (by rw [length_writeA]; simp)]

end HeapMerge

/-- Claim C8 witness: the no-mutation theorem at a concrete store holding
one local client array and one local session array. -/
theorem claim_C8_no_input_mutation_witness :
    SyncManager.readA
        (SyncManager.mergeDataHeap ⟨[], []⟩
          ⟨[⟨"a", TimeField.valid 3, 1⟩], []⟩
          [[⟨"a", TimeField.valid 1, 0⟩], []] 0 1).2 0
      = SyncManager.readA [[⟨"a", TimeField.valid 1, 0⟩], []] 0 ∧
    SyncManager.readA
        (SyncManager.mergeDataHeap ⟨[], []⟩
          ⟨[⟨"a", TimeField.valid 3, 1⟩], []⟩
          [[⟨"a", TimeField.valid 1, 0⟩], []] 0 1).2 1
      = SyncManager.readA [[⟨"a", TimeField.valid 1, 0⟩], []] 1 :=
  ⟨(claim_C8_no_input_mutation ⟨[], []⟩ ⟨[⟨"a", TimeField.valid 3, 1⟩], []⟩
      [[⟨"a", TimeField.valid 1, 0⟩], []] 0 1 (by decide) (by decide)).1,
   (claim_C8_no_input_mutation ⟨[], []⟩ ⟨[⟨"a", TimeField.valid 3, 1⟩], []⟩
      [[⟨"a", TimeField.valid 1, 0⟩], []] 0 1 (by decide) (by decide)).2.1⟩

namespace SyncQueueService

/-- Effect a drain-pass handler may perform on the queue service before
returning: nothing, or a call to `add`. -/
inductive HEff where
  | noEff
  | addCall (action : String) (d : Data) (ts : String)
deriving DecidableEq, Repr

/-- One handler invocation: its queue effect and its outcome (`none` =
threw / rejected). -/
structure HStep where
  eff : HEff
  res : Option Bool
deriving DecidableEq, Repr

/-- State of a `process` pass over the live JS arrays: `iter` is the array
object the `for...of` loop iterates (its live length is re-read on every
step), `q` the contents of the array `#queue` currently references,
`aliased` whether `#queue` still references the iterated array object,
`succ`/`fail` the partitions accumulated so far, and `n` the loop index. -/
structure SimSt where
  iter : List Entry
  q : List Entry
  aliased : Bool
  succ : List Entry
  fail : List Entry
  n : Nat
deriving DecidableEq, Repr, Inhabited

/-- `add` interleaved during a pass: a truthy id reassigns `#queue` to a
fresh filtered-then-pushed array (breaking the alias and leaving the
iterated array untouched), while a falsy id pushes onto the current
`#queue` array — which, while still aliased, is the very array being
iterated, so the loop will reach the new entry. -/
def simAdd (σ : SimSt) (a : String) (d : Data) (ts : String) : SimSt :=
  if truthy d.id then
    { σ with q := (σ.q.filter (fun e => !(e.data.id == d.id))) ++ [⟨a, d, ts⟩],
             aliased := false }
  else if σ.aliased then
    { σ with iter := σ.iter ++ [⟨a, d, ts⟩], q := σ.q ++ [⟨a, d, ts⟩] }
  else
    { σ with q := σ.q ++ [⟨a, d, ts⟩] }

/-- End of the pass: `#queue` is overwritten with the failed subset. -/
def simFinish (σ : SimSt) : SimSt :=
  { σ with q := σ.fail, aliased := false }

/-- The `process` loop over the live arrays: fetch the element at the loop
index from the (possibly grown) iterated array, run the handler's effect,
classify the fetched element by the handler's outcome, and continue; when
the index reaches the live length, overwrite the queue with the failed
subset. `script n` is the behaviour of the n-th handler invocation; `fuel`
bounds the iterations (an id-less add while aliased extends the iteration,
which in JS can keep the loop running indefinitely). -/
def simLoop (script : Nat → HStep) : Nat → SimSt → Option SimSt
  | 0, σ => if σ.n < σ.iter.length then none else some (simFinish σ)
  | fuel + 1, σ =>
    match σ.iter.get? σ.n with
    | none => some (simFinish σ)
    | some e =>
      let step := script σ.n
      let σ1 := match step.eff with
        | .noEff => σ
        | .addCall a d ts => simAdd σ a d ts
      let σ2 := match step.res with
        | some true => { σ1 with succ := σ1.succ ++ [e] }
        | _ => { σ1 with fail := σ1.fail ++ [e] }
      simLoop script fuel { σ2 with n := σ2.n + 1 }

/-- The start of a `process` pass: the loop iterates the very array
`#queue` references. -/
def initSim (q : List Entry) : SimSt := ⟨q, q, true, [], [], 0⟩

end SyncQueueService

section SimLemmas

open SyncQueueService

theorem simAdd_frame (σ : SimSt) (a : String) (d : Data) (ts : String) :
    (simAdd σ a d ts).fail = σ.fail ∧ (simAdd σ a d ts).n = σ.n ∧
    ∃ ext : List Entry, (simAdd σ a d ts).iter = σ.iter ++ ext ∧
      ∀ x ∈ ext, truthy x.data.id = false := by
  unfold simAdd
  by_cases htr : truthy d.id = true
  · rw [if_pos htr]
    exact ⟨rfl, rfl, [], by simp, by simp⟩
  · rw [if_neg htr]
    have htr' : truthy d.id = false := by
      cases hx : truthy d.id
      · rfl
      · exact absurd hx htr
    by_cases hal : σ.aliased = true
    · rw [if_pos hal]
      refine ⟨rfl, rfl, [⟨a, d, ts⟩], rfl, ?_⟩
      intro x hx
      have : x = ⟨a, d, ts⟩ := by simpa using hx
      rw [this]
      exact htr'
    · rw [if_neg hal]
      exact ⟨rfl, rfl, [], by simp, by simp⟩

theorem sim_compose {σ σc σf : SimSt} {e : Entry}
    (hq : σf.q = σf.fail)
    (hext : ∃ ext, σf.iter = σc.iter ++ ext ∧
      ∀ x ∈ ext, truthy x.data.id = false)
    (hdf : ∃ df, σf.fail = σc.fail ++ df ∧ ∀ x ∈ df, x ∈ σf.iter)
    (hiter : ∃ ext1, σc.iter = σ.iter ++ ext1 ∧
      ∀ x ∈ ext1, truthy x.data.id = false)
    (hfail : σc.fail = σ.fail ∨ (σc.fail = σ.fail ++ [e] ∧ e ∈ σ.iter)) :
    σf.q = σf.fail ∧
    (∃ ext, σf.iter = σ.iter ++ ext ∧ ∀ x ∈ ext, truthy x.data.id = false) ∧
    (∃ df, σf.fail = σ.fail ++ df ∧ ∀ x ∈ df, x ∈ σf.iter) := by
  obtain ⟨ext1, hi1, hf1⟩ := hiter
  obtain ⟨ext2, hi2, hf2⟩ := hext
  obtain ⟨df2, hd2, hm2⟩ := hdf
  refine ⟨hq, ⟨ext1 ++ ext2, by rw [hi2, hi1, List.append_assoc], ?_⟩, ?_⟩
  · intro x hx
    rcases List.mem_append.mp hx with hxx | hxx
    exacts [hf1 x hxx, hf2 x hxx]
  · rcases hfail with hf | ⟨hf, he⟩
    · exact ⟨df2, by rw [hd2, hf], hm2⟩
    · refine ⟨e :: df2, by rw [hd2, hf]; simp, ?_⟩
      intro x hx
      rcases List.mem_cons.mp hx with rfl | hxx
      · rw [hi2, hi1]
        exact List.mem_append_left _ (List.mem_append_left _ he)
      · exact hm2 x hxx

theorem simLoop_inv (script : Nat → HStep) :
    ∀ (fuel : Nat) (σ σf : SimSt),
      simLoop script fuel σ = some σf →
      σf.q = σf.fail ∧
      (∃ ext, σf.iter = σ.iter ++ ext ∧
        ∀ x ∈ ext, truthy x.data.id = false) ∧
      (∃ df, σf.fail = σ.fail ++ df ∧ ∀ x ∈ df, x ∈ σf.iter) := by
  intro fuel
  induction fuel with
  | zero =>
    intro σ σf h
    simp only [simLoop] at h
    split at h
    · exact absurd h (by simp)
    · injection h with h2
      subst h2
      exact ⟨rfl, ⟨[], by simp [simFinish], by simp⟩,
        ⟨[], by simp [simFinish], by simp⟩⟩
  | succ fuel ih =>
    intro σ σf h
    simp only [simLoop] at h
    cases hget : σ.iter.get? σ.n with
    | none =>
      rw [hget] at h
      dsimp only at h
      injection h with h2
      subst h2
      exact ⟨rfl, ⟨[], by simp [simFinish], by simp⟩,
        ⟨[], by simp [simFinish], by simp⟩⟩
    | some e =>
      rw [hget] at h
      dsimp only at h
      have hem : e ∈ σ.iter := List.get?_mem hget
      rcases hstep : script σ.n with ⟨eff, res⟩
      rw [hstep] at h
      cases eff with
      | noEff =>
        dsimp only at h
        cases res with
        | none =>
          dsimp only at h
          obtain ⟨ihq, ihext, ihdf⟩ := ih _ _ h
          exact sim_compose ihq ihext ihdf ⟨[], by simp, by simp⟩
            (Or.inr ⟨rfl, hem⟩)
        | some b =>
          cases b with
          | false =>
            dsimp only at h
            obtain ⟨ihq, ihext, ihdf⟩ := ih _ _ h
            exact sim_compose ihq ihext ihdf ⟨[], by simp, by simp⟩
              (Or.inr ⟨rfl, hem⟩)
          | true =>
            dsimp only at h
            obtain ⟨ihq, ihext, ihdf⟩ := ih _ _ h
            exact @sim_compose σ _ σf e ihq ihext ihdf ⟨[], by simp, by simp⟩
              (Or.inl rfl)
      | addCall a d ts =>
        dsimp only at h
        obtain ⟨haf, han, ext1, hai, hafal⟩ := simAdd_frame σ a d ts
        cases res with
        | none =>
          dsimp only at h
          obtain ⟨ihq, ihext, ihdf⟩ := ih _ _ h
          exact sim_compose ihq ihext ihdf ⟨ext1, hai, hafal⟩
            (Or.inr ⟨congrArg (· ++ [e]) haf, hem⟩)
        | some b =>
          cases b with
          | false =>
            dsimp only at h
            obtain ⟨ihq, ihext, ihdf⟩ := ih _ _ h
            exact sim_compose ihq ihext ihdf ⟨ext1, hai, hafal⟩
              (Or.inr ⟨congrArg (· ++ [e]) haf, hem⟩)
          | true =>
            dsimp only at h
            obtain ⟨ihq, ihext, ihdf⟩ := ih _ _ h
            exact @sim_compose σ _ σf e ihq ihext ihdf ⟨ext1, hai, hafal⟩
              (Or.inl haf)

end SimLemmas

/-- A handler script whose first invocation enqueues an id-less entry (like
a `syncAll` payload) and fails; all invocations fail. -/
def c9script : Nat → SyncQueueService.HStep := fun n =>
  if n = 0 then ⟨.addCall "syncAll" ⟨none, none, 1⟩ "t1", some false⟩
  else ⟨.noEff, some false⟩

/-- Claim C9 counterexample: a handler that enqueues an id-less entry
during the pass pushes onto the very array being iterated; the new entry is
processed in the same pass, classified failed, and is present in the final
queue — although it was not present when the drain started. -/
theorem claim_C9_counterexample :
    ((SyncQueueService.simLoop c9script 3 (SyncQueueService.initSim
        [⟨"saveClient", ⟨some "c1", none, 0⟩, "t0"⟩])).map (fun σ => σ.q))
      = some [⟨"saveClient", ⟨some "c1", none, 0⟩, "t0"⟩,
              ⟨"syncAll", ⟨none, none, 1⟩, "t1"⟩] ∧
    (⟨"syncAll", ⟨none, none, 1⟩, "t1"⟩ : Entry)
      ∉ [(⟨"saveClient", ⟨some "c1", none, 0⟩, "t0"⟩ : Entry)] := by
  decide

/-- Claim C9 (amended): whenever a drain pass terminates, the final queue
is exactly the failed-classified subset of the entries the pass processed;
the processed entries are the initial queue plus only id-less (JS-falsy id)
entries added while the queue was still aliased to the iterated array —
such an in-pass addition is processed in the same pass and survives in the
final queue exactly when it is classified failed, whereas an entry added
with a truthy id during the pass is never processed and is absent from the
final queue. -/
theorem claim_C9_interleaved_add (script : Nat → SyncQueueService.HStep)
    (fuel : Nat) (q0 : List Entry) (σf : SyncQueueService.SimSt)
    (h : SyncQueueService.simLoop script fuel (SyncQueueService.initSim q0)
      = some σf) :
    σf.q = σf.fail ∧
    (∃ ext, σf.iter = q0 ++ ext ∧ ∀ x ∈ ext, truthy x.data.id = false) ∧
    (∀ x ∈ σf.q, x ∈ σf.iter) := by
  obtain ⟨hq, hext, hdf⟩ :=
    simLoop_inv script fuel (SyncQueueService.initSim q0) σf h
  refine ⟨hq, hext, ?_⟩
  obtain ⟨df, hdfe, hdm⟩ := hdf
  intro x hx
  rw [hq, hdfe] at hx
  exact hdm x (by simpa [SyncQueueService.initSim] using hx)

/-- The final state of the concrete interleaved-add run. -/
def c9final : SyncQueueService.SimSt :=
  (SyncQueueService.simLoop c9script 3 (SyncQueueService.initSim
    [⟨"saveClient", ⟨some "c1", none, 0⟩, "t0"⟩])).getD default

/-- Claim C9 witness: the amended theorem applied to the concrete
terminating run. -/
theorem claim_C9_interleaved_add_witness :
    c9final.q = c9final.fail ∧
    (∃ ext, c9final.iter
        = [⟨"saveClient", ⟨some "c1", none, 0⟩, "t0"⟩] ++ ext ∧
      ∀ x ∈ ext, truthy x.data.id = false) ∧
    (∀ x ∈ c9final.q, x ∈ c9final.iter) :=
  claim_C9_interleaved_add c9script 3
    [⟨"saveClient", ⟨some "c1", none, 0⟩, "t0"⟩] c9final (by rfl)
